import Mathlib

/-!
Verification of the express-chocolatey-server core pipeline.

The JavaScript source (src/chocolatey-server.js) is shallowly embedded below:
pure string manipulation becomes Lean functions on `String`/`List Char`,
JS regular-expression operations are embedded by their concrete semantics for
the fixed patterns appearing in the source (leftmost match, greedy or lazy
quantifiers, dot not matching newline, case-insensitive flag where present),
JS truthiness on optional strings becomes explicit tests, and code that can
throw (property access on `undefined`) returns `Except Unit`.
-/

/-! ## Character constants (kept symbolic to keep literals unambiguous) -/

def lbrace : Char := Char.ofNat 123

def rbrace : Char := Char.ofNat 125

def squote : Char := Char.ofNat 39

def nlChar : Char := Char.ofNat 10

def btChar : Char := Char.ofNat 96

def dollarChar : Char := Char.ofNat 36

def ampChar : Char := Char.ofNat 38

/-! ## List-of-char primitives used by the regex embeddings -/

/-- Does `needle` occur at the start of `hay`?  (Char-exact.) -/
def startsWithL : List Char → List Char → Bool
  | [], _ => true
  | _ :: _, [] => false
  | a :: as, b :: bs => a == b && startsWithL as bs

/-- Does `needle` occur anywhere in `hay`?  This is the semantics of
JavaScript `String.prototype.includes`. -/
def containsL (needle : List Char) : List Char → Bool
  | [] => startsWithL needle []
  | hay@(_ :: t) => startsWithL needle hay || containsL needle t

/-- The maximal prefix of `l` that contains no newline: the span a JS regex
`.` (without the `s` flag) can traverse. -/
def lineSeg : List Char → List Char
  | [] => []
  | c :: rest => if c == nlChar then [] else c :: lineSeg rest

/-- Index of the first occurrence of `c` in `l`. -/
def firstIdxOf (c : Char) : List Char → Option Nat
  | [] => none
  | a :: rest => if a == c then some 0 else (firstIdxOf c rest).map (· + 1)

/-- Index of the last occurrence of `c` in `l` (greedy `.*` backtracks to
this position). -/
def lastIdxOf (c : Char) : List Char → Option Nat
  | [] => none
  | a :: rest =>
    match lastIdxOf c rest with
    | some j => some (j + 1)
    | none => if a == c then some 0 else none

/-! ## JS string / truthiness helpers -/

/-- JS `hay.includes(sub)`. -/
def jsIncludes (hay sub : String) : Bool := containsL sub.data hay.data

/-- JS `x || ''` for an optional string `x` (`undefined` and `''` are falsy). -/
def jsOrEmpty : Option String → String
  | none => ""
  | some s => if s.isEmpty then "" else s

/-- JS truthiness of an optional string: `undefined` and `''` are falsy,
every other string is truthy. -/
def optTruthy : Option String → Bool
  | none => false
  | some s => !s.isEmpty

/-! ## Data model: one package metadata record (src/chocolatey-server.js
`readPackageMetadata` output after normalization).  Template-relevant fields
are strings; optional nuspec fields that may be absent are `Option String`;
`dependencies` is the sequence of attribute maps extracted from the manifest;
`nupkgData` is the raw archive byte blob (present when hosted locally). -/

structure Dep where
  id : String
  version : Option String
deriving Repr, DecidableEq

structure Package where
  id : String
  version : Option String := none
  title : Option String := none
  summary : Option String := none
  description : Option String := none
  authors : Option String := none
  copyright : Option String := none
  tags : Option String := none
  dependencies : Option (List Dep) := none
  nupkgData : Option (List Nat) := none
  url : Option String := none
  _flat_deps : String := ""
  _flat_tags : String := ""
deriving Repr, DecidableEq

/-- Dynamic JS property lookup `entry[key]` restricted to the string-valued
fields the feed templates reference (the non-string fields `dependencies` and
`nupkgData` are never used as template keys by any template of the repo). -/
def Package.fieldVal (e : Package) : String → Option String
  | "id" => some e.id
  | "version" => e.version
  | "title" => e.title
  | "summary" => e.summary
  | "description" => e.description
  | "authors" => e.authors
  | "copyright" => e.copyright
  | "tags" => e.tags
  | "url" => e.url
  | "_flat_deps" => some e._flat_deps
  | "_flat_tags" => some e._flat_tags
  | _ => none

/-! ## Metadata normalizer (preprocessPackageMetadata, lines 78-106) -/

/-- JS `Array.prototype.join(sep)` on a list of strings. -/
def jsJoin (sep : String) : List String → String
  | [] => ""
  | [x] => x
  | x :: rest => x ++ sep ++ jsJoin sep rest

/-- The deferred origin placeholder written into locally-hosted download URLs
(line 103) and substituted at response time (line 184). -/
def urlRootPh : String := "{EXPRESS_URL_ROOT}"

/-- Per-entry body of `preprocessPackageMetadata` (lines 79-105).  Note the
JS truthiness tests: `entry.dependencies` is an array (truthy even when
empty), `entry.tags` is a string (`''` is falsy), `entry.nupkgData` is a
Buffer (truthy even when empty). -/
def preprocessEntry (pfx : String) (e : Package) : Package :=
  { e with
    _flat_deps :=
      match e.dependencies with
      | some ds => jsJoin "|" (ds.map fun d => d.id ++ ":" ++ jsOrEmpty d.version ++ ":")
      | none => ""
    _flat_tags :=
      match e.tags with
      | some t => if t.isEmpty then "" else " " ++ t ++ " "
      | none => ""
    url :=
      match e.nupkgData with
      | some _ => some (urlRootPh ++ pfx ++ "download/" ++ e.id)
      | none => e.url }

/-- Second definition, following the spec's words only (§6 "Dependency
flattening format"): one `id:version:` segment per dependency in order,
trailing colon present even when the version is empty, segments joined by a
pipe with no trailing pipe, empty result for an empty list.  Used as the
refinement comparator for the code-side `_flat_deps` computation. -/
def specFlatDeps : List Dep → String
  | [] => ""
  | [d] => d.id ++ ":" ++ d.version.getD "" ++ ":"
  | d :: rest => d.id ++ ":" ++ d.version.getD "" ++ ":" ++ "|" ++ specFlatDeps rest

/-! ## Filter query interpreter (lines 165-173)

`filterForOnePackage` embeds the JS regex match
  `filter.match(/tolower\(Id\) eq '(.*)'/i)`:
leftmost position where the 16-char literal `tolower(Id) eq '` matches
case-insensitively, then a greedy dot-run (which cannot cross a newline)
backtracking to the last single quote of that line; the returned value is
capture group 1, `none` when the regex does not match. -/

def caselessEq (a b : Char) : Bool := a.toLower == b.toLower

def startsWithCI : List Char → List Char → Bool
  | [], _ => true
  | _ :: _, [] => false
  | a :: as, b :: bs => caselessEq a b && startsWithCI as bs

def litOne : List Char := String.data "tolower(Id) eq "

def findOneAux : List Char → Option (List Char)
  | [] => none
  | s@(_ :: rest) =>
    if startsWithCI (litOne ++ [squote]) s then
      let tailPart := s.drop (litOne.length + 1)
      match lastIdxOf squote (lineSeg tailPart) with
      | some j => some (tailPart.take j)
      | none => findOneAux rest
    else findOneAux rest

def filterForOnePackage (filter : String) : Option String :=
  (findOneAux filter.data).map fun l => String.mk l

/-- Embedding of `filter.match(/substringof\('(.*?)',tolower\(.*?\)\)/)`
(case-sensitive, both quantifiers lazy): leftmost position where the literal
`substringof('` matches; the first capture takes the fewest characters (never
crossing a newline) such that the literal `',tolower(` follows and, after a
further newline-free lazy run, the literal `))` closes the pattern;
backtracking widens the capture before moving the start position right. -/

def litManyA : List Char := String.data "substringof("

def litManyB : List Char := String.data ",tolower("

def litManyC : List Char := String.data "))"

/-- After the second lazy run starts at `t`: can `))` be reached without
crossing a newline? -/
def hasClose : List Char → Bool
  | [] => false
  | t@(c :: rest) => startsWithL litManyC t || (c != nlChar && hasClose rest)

/-- Smallest (lazy) first capture from text `t` following `substringof('`,
`none` when no amount of widening makes the rest of the pattern match. -/
def findCap : List Char → Option (List Char)
  | [] => none
  | t@(c :: rest) =>
    if startsWithL ([squote] ++ litManyB) t && hasClose (t.drop (litManyB.length + 1)) then
      some []
    else if c == nlChar then none
    else (findCap rest).map (c :: ·)

def findManyAux : List Char → Option (List Char)
  | [] => none
  | s@(_ :: rest) =>
    if startsWithL (litManyA ++ [squote]) s then
      match findCap (s.drop (litManyA.length + 1)) with
      | some cap => some cap
      | none => findManyAux rest
    else findManyAux rest

def filterForManyPackages (filter : String) : Option String :=
  (findManyAux filter.data).map fun l => String.mk l

/-! ## Feed template renderer (formatPackages, lines 175-185) -/

/-- One pass of the global replace
  `entryTemplate.replace(/{(.*)}/g, (match, key) => entry[key] || '')`
restricted to a single newline-free line: the regex `.` cannot cross a
newline, the quantifier is greedy, and matches cannot overlap, so on each
line at most one match fires, spanning from the first open brace to the last
close brace of the line (provided the close brace comes later); everything
the callback returns is emitted verbatim and never rescanned. -/
def substLineChars (lookup : List Char → List Char) (line : List Char) : List Char :=
  match firstIdxOf lbrace line, lastIdxOf rbrace line with
  | some p, some q =>
    if p < q then
      line.take p ++ lookup ((line.drop (p + 1)).take (q - p - 1)) ++ line.drop (q + 1)
    else line
  | _, _ => line

/-- Split on newline characters (boundaries the regex dot cannot cross). -/
def splitLines : List Char → List (List Char)
  | [] => [[]]
  | c :: rest =>
    if c == nlChar then [] :: splitLines rest
    else
      match splitLines rest with
      | [] => [[c]]
      | l :: ls => (c :: l) :: ls

def joinLines : List (List Char) → List Char
  | [] => []
  | [l] => l
  | l :: rest => l ++ [nlChar] ++ joinLines rest

/-- `entryTemplate.replace(/{(.*)}/g, (match, key) => entry[key] || '')`
for one matched record, with `lookup` the dynamic property access. -/
def renderEntry (entryTemplate : String) (lookup : String → Option String) : String :=
  String.mk (joinLines ((splitLines entryTemplate.data).map
    (substLineChars fun ks => (jsOrEmpty (lookup (String.mk ks))).data)))

/-- Expansion of a plain-string replacement argument of JS `replace` for a
pattern with no capture groups: `$$` is a literal dollar, `$&` the matched
text, a dollar-backquote the part of the original string before the match,
`$'` the part after it; any other dollar stays literal (group references like
`$1` are not expanded when the pattern has no groups). -/
def dollarExpandAux (before matched after : List Char) : Bool → List Char → List Char
  | false, [] => []
  | false, c :: rest =>
    if c == dollarChar then dollarExpandAux before matched after true rest
    else c :: dollarExpandAux before matched after false rest
  | true, [] => [dollarChar]
  | true, d :: rest =>
    if d == dollarChar then dollarChar :: dollarExpandAux before matched after false rest
    else if d == ampChar then matched ++ dollarExpandAux before matched after false rest
    else if d == btChar then before ++ dollarExpandAux before matched after false rest
    else if d == squote then after ++ dollarExpandAux before matched after false rest
    else dollarChar :: d :: dollarExpandAux before matched after false rest

def dollarExpand (before matched after repl : List Char) : List Char :=
  dollarExpandAux before matched after false repl

/-- Non-global `s.replace(pat, repl)` for a literal pattern `pat` and a plain
string replacement: only the leftmost occurrence is replaced; `done` is the
original text already scanned (needed for the dollar expansions). -/
def jsReplaceFirstAux (pat repl : List Char) : List Char → List Char → List Char
  | _, [] => []
  | done, s@(c :: rest) =>
    if !pat.isEmpty && startsWithL pat s then
      dollarExpand done pat (s.drop pat.length) repl ++ s.drop pat.length
    else c :: jsReplaceFirstAux pat repl (done ++ [c]) rest

def jsReplaceFirst (s pat repl : String) : String :=
  String.mk (jsReplaceFirstAux pat.data repl.data [] s.data)

/-- Global `s.replace(pat, repl)` for a literal pattern (all non-overlapping
occurrences, scanning left to right).  Each step consumes at least one
character, so `fuel := s.length` always suffices; the fuel argument only
makes the recursion structural. -/
def jsReplaceAllFuel (pat repl : List Char) : Nat → List Char → List Char → List Char
  | 0, _, s => s
  | _ + 1, _, [] => []
  | fuel + 1, done, s@(c :: rest) =>
    if !pat.isEmpty && startsWithL pat s then
      dollarExpand done pat (s.drop pat.length) repl ++
        jsReplaceAllFuel pat repl fuel (done ++ pat) (s.drop pat.length)
    else c :: jsReplaceAllFuel pat repl fuel (done ++ [c]) rest

def jsReplaceAll (s pat repl : String) : String :=
  String.mk (jsReplaceAllFuel pat.data repl.data s.data.length [] s.data)

/-- The literal pattern of `packagesTemplate.replace(/{entries}\n/g, ...)`. -/
def entriesPat : String := "{entries}\n"

/-- `formatPackages(matchedPackages, req)` (lines 175-185), with the two
templates and the request scheme and host passed explicitly (the JS closure
reads the templates from files once at configuration time).  Each matched
record is rendered through the entry template, the renditions are
concatenated in match order (`entries.join('')`), spliced into the collection
wrapper, and finally `{EXPRESS_URL_ROOT}` is substituted by
`req.protocol + '://' + req.get('host')` — by a regex without the global
flag. -/
def formatPackages (entryTemplate packagesTemplate : String)
    (matched : List (String → Option String)) (protocol host : String) : String :=
  let entries := matched.map fun e => renderEntry entryTemplate e
  let url_root := protocol ++ "://" ++ host
  jsReplaceFirst (jsReplaceAll packagesTemplate entriesPat (String.join entries))
    urlRootPh url_root

/-! ## Templates -/

/-- The entry-fragment template, verbatim from src/static/entry-template.atom. -/
def entryTemplateAtom : String :=
"  <entry>
    <id>https://choco-js-fake-data/package/{name}/{version}</id>
    <title type=\"text\">{id}</title>
    <summary type=\"text\">{summary}</summary>
    <author>
      <name>{authors}</name>
    </author>
    <content type=\"application/zip\" src=\"{url}\" />
    <summary type=\"text\">{summary}</summary>
    <m:properties>
      <d:Version>{version}</d:Version>
      <d:Title>{title}</d:Title>
      <d:Description>{description}</d:Description>
      <d:Tags xml:space=\"preserve\">{_flat_tags}</d:Tags>
      <d:Copyright>{copyright}</d:Copyright>
      <d:Dependencies>{_flat_deps}</d:Dependencies>
      <d:IconUrl>{iconUrl}</d:IconUrl>
      <d:IsLatestVersion m:type=\"Edm.Boolean\">true</d:IsLatestVersion>
      <d:IsAbsoluteLatestVersion m:type=\"Edm.Boolean\">true</d:IsAbsoluteLatestVersion>
      <d:IsPrerelease m:type=\"Edm.Boolean\">false</d:IsPrerelease>
      <d:LicenseUrl>{licenseUrl}</d:LicenseUrl>
      <d:RequireLicenseAcceptance m:type=\"Edm.Boolean\">{requireLicenseAcceptance}</d:RequireLicenseAcceptance>
      <d:ProjectUrl>{projectUrl}</d:ProjectUrl>
      <d:ReleaseNotes>{releaseNotes}</d:ReleaseNotes>
      <d:ProjectSourceUrl>{projectSourceUrl}</d:ProjectSourceUrl>
      <d:PackageSourceUrl>{packageSourceUrl}</d:PackageSourceUrl>
      <d:DocsUrl>{docsUrl}</d:DocsUrl>
      <d:MailingListUrl>{mailingListUrl}</d:MailingListUrl>
      <d:BugTrackerUrl>{bugTrackerUrl}</d:BugTrackerUrl>
    </m:properties>
  </entry>
"

/-- Modelled from the spec: the entries-collection wrapper template
(src/static/packages-template.atom is not under src/; §4.4 specifies an
entries-collection wrapper into which the concatenated rendered entries are
substituted, and the code substitutes the placeholder line
`{entries}` followed by its newline, line 183). -/
def packagesTemplateSpec : String :=
"<?xml version=\"1.0\" encoding=\"utf-8\"?>
<feed>
{entries}
</feed>
"

/-- Modelled from the spec: the error-document template (src/static/error.atom
is not under src/; §4.5 and §7 only require a fixed error feed document
returned verbatim on an unrecognized filter). -/
def errorAtomSpec : String :=
"<?xml version=\"1.0\" encoding=\"utf-8\"?>
<error>unrecognized filter</error>
"

/-! ## Protocol facade / route dispatcher (configureRoutes, lines 120-250) -/

def ATOM_MIME_TYPE : String := "application/atom+xml; charset=utf-8"

def BINARY_MIME_TYPE : String := "application/octet-stream"

inductive Body where
  | text (s : String)
  | bytes (b : Option (List Nat))
deriving Repr, DecidableEq

structure Response where
  status : Nat
  contentType : Option String
  body : Body
deriving Repr, DecidableEq

/-- The `get` wrapper (lines 143-153): a handler that throws is caught
per-request and converted to a generic 500 response with body `Exception!`. -/
def getWrapped (h : Except Unit Response) : Response :=
  match h with
  | Except.ok r => r
  | Except.error _ => { status := 500, contentType := none, body := Body.text "Exception!" }

/-- The per-record predicate of the substring search (lines 208-212):
`entry.id.includes(substring) || entry.summary.includes(substring) ||
entry._flat_tags.includes(' ' + substring + ' ')`.  The disjunction
short-circuits left to right; when it reaches `entry.summary` and the record
has no summary field, the property access on `undefined` throws. -/
def searchPred (sub : String) (e : Package) : Except Unit Bool :=
  if jsIncludes e.id sub then Except.ok true
  else
    match e.summary with
    | none => Except.error ()
    | some sm => Except.ok (jsIncludes sm sub || jsIncludes e._flat_tags (" " ++ sub ++ " "))

/-- JS `Array.prototype.filter` with a callback that may throw: elements are
visited in order and the first exception aborts the whole call. -/
def filterE (p : α → Except Unit Bool) : List α → Except Unit (List α)
  | [] => Except.ok []
  | x :: xs =>
    match p x with
    | Except.error e => Except.error e
    | Except.ok b =>
      match filterE p xs with
      | Except.error e => Except.error e
      | Except.ok rest => Except.ok (if b then x :: rest else rest)

/-- The matched-record computation of the substring branch (lines 208-212). -/
def packagesSearchMatches (sub : String) (pkgs : List Package) : Except Unit (List Package) :=
  filterE (searchPred sub) pkgs

/-- Handler of `GET <prefix>Packages()` (lines 197-224).  `filterQ` is
`req.query['$filter']`; when the query parameter is absent the JS value is
`undefined` and `filter.match(...)` inside `filterForOnePackage` throws
before anything else happens. -/
def packagesHandler (entryT pkgT errA : String) (pkgs : List Package)
    (filterQ : Option String) (protocol host : String) : Except Unit Response :=
  match filterQ with
  | none => Except.error ()
  | some filter =>
    let name := filterForOnePackage filter
    let sub := filterForManyPackages filter
    if optTruthy name then
      Except.ok
        { status := 200, contentType := some ATOM_MIME_TYPE
          body := Body.text (formatPackages entryT pkgT
            (((pkgs.filter fun e => e.id == name.getD "").map Package.fieldVal)) protocol host) }
    else if optTruthy sub then
      match packagesSearchMatches (sub.getD "") pkgs with
      | Except.error e => Except.error e
      | Except.ok matched =>
        Except.ok
          { status := 200, contentType := some ATOM_MIME_TYPE
            body := Body.text (formatPackages entryT pkgT
              (matched.map Package.fieldVal) protocol host) }
    else
      Except.ok { status := 400, contentType := some ATOM_MIME_TYPE, body := Body.text errA }

/-- Embedding of `id.replace(/'(.*)'/, '$1')` (line 229): leftmost single
quote that has another single quote later on the same line starts the match;
the greedy dot-run backtracks to the last such quote; the first match is
replaced by its capture (the text between the two quotes), the rest of the
string is kept verbatim; with no match the string is unchanged. -/
def jsStripQuotesL : List Char → List Char
  | [] => []
  | c :: rest =>
    if c == squote then
      match lastIdxOf squote (lineSeg rest) with
      | some j => rest.take j ++ rest.drop (j + 1)
      | none => c :: jsStripQuotesL rest
    else c :: jsStripQuotesL rest

def jsStripQuotes (s : String) : String := String.mk (jsStripQuotesL s.data)

/-- The matched-record computation of `GET <prefix>FindPackagesById()`
(lines 229-231): `(req.query['id'] || '')` with the quote-stripping replace,
then an exact id comparison. -/
def findByIdMatches (pkgs : List Package) (idQ : Option String) : List Package :=
  pkgs.filter fun e => e.id == jsStripQuotes (jsOrEmpty idQ)

/-- Handler of `GET <prefix>FindPackagesById()` (lines 226-236). -/
def findByIdHandler (entryT pkgT : String) (pkgs : List Package)
    (idQ : Option String) (protocol host : String) : Except Unit Response :=
  Except.ok
    { status := 200, contentType := some ATOM_MIME_TYPE
      body := Body.text (formatPackages entryT pkgT
        ((findByIdMatches pkgs idQ).map Package.fieldVal) protocol host) }

/-- Handler of `GET <prefix>download/:name` (lines 238-249):
`packageMetadataList.find(entry => entry.id == name)`; on a hit the raw
archive bytes are sent with the binary content type, otherwise a 404 with the
fixed body `Not found`. -/
def downloadHandler (pkgs : List Package) (name : String) : Response :=
  match pkgs.find? fun e => e.id == name with
  | some p => { status := 200, contentType := some BINARY_MIME_TYPE, body := Body.bytes p.nupkgData }
  | none => { status := 404, contentType := none, body := Body.text "Not found" }

/-! Demonstration records used by witnesses and counterexamples -/

/-- A single-quote character as a one-character string. -/
def squoteStr : String := String.mk [squote]

def demoLocalA : Package :=
  preprocessEntry "/" { id := "a", version := some "1.0", summary := some "s1", nupkgData := some [0] }

def demoLocalB : Package :=
  preprocessEntry "/" { id := "b", version := some "2.0", summary := some "s2", nupkgData := some [1] }

def demoPkgC2 : Package := { id := "p", version := some "1.0" }

def demoTagged : Package := preprocessEntry "/" { id := "x", summary := some "y", tags := some "abc" }

def demoNoSummary : Package := preprocessEntry "/" { id := "foo" }

def demoNewlineId : Package := { id := "a\nb" }

def demoFound : Package := { id := "exact-name" }

def demoDl : Package := { id := "p", nupkgData := some [7, 8] }

def demoDepPkg : Package :=
  { id := "x", dependencies := some [{ id := "a", version := some "1" }, { id := "b", version := none }] }

def demoTagPkg : Package := { id := "x", tags := some "t" }

/-! Helper lemmas about the list primitives -/

theorem startsWithL_self_append (p t : List Char) : startsWithL p (p ++ t) = true := by
  induction p with
  | nil => rfl
  | cons a as ih => simp [startsWithL, ih]

theorem containsL_of_startsWithL {p h : List Char} (hs : startsWithL p h = true) :
    containsL p h = true := by
  cases h with
  | nil => simpa [containsL] using hs
  | cons c t => simp [containsL, hs]

theorem containsL_cons {p t : List Char} (c : Char) (h : containsL p t = true) :
    containsL p (c :: t) = true := by
  simp [containsL, h]

theorem containsL_append_left {p t : List Char} (x : List Char) (h : containsL p t = true) :
    containsL p (x ++ t) = true := by
  induction x with
  | nil => simpa using h
  | cons c cs ih => simpa using containsL_cons c ih

theorem containsL_mid (p x y : List Char) : containsL p (x ++ p ++ y) = true := by
  have h1 : containsL p (p ++ y) = true :=
    containsL_of_startsWithL (startsWithL_self_append p y)
  simpa [List.append_assoc] using containsL_append_left x h1

theorem lastIdxOf_append_self (c : Char) (l : List Char) :
    lastIdxOf c (l ++ [c]) = some l.length := by
  induction l with
  | nil => simp [lastIdxOf]
  | cons a as ih => simp [lastIdxOf, ih]

theorem lineSeg_eq_self {l : List Char} (h : ∀ c ∈ l, c ≠ nlChar) : lineSeg l = l := by
  induction l with
  | nil => rfl
  | cons a as ih =>
    have ha : (a == nlChar) = false := by
      simpa using h a (List.mem_cons_self a as)
    simp only [lineSeg, ha, Bool.false_eq_true, if_false, List.cons.injEq, true_and]
    exact ih fun c hc => h c (List.mem_cons_of_mem a hc)

theorem splitLines_single {l : List Char} (h : ∀ c ∈ l, c ≠ nlChar) : splitLines l = [l] := by
  induction l with
  | nil => rfl
  | cons a as ih =>
    have ha : (a == nlChar) = false := by
      simpa using h a (List.mem_cons_self a as)
    have ih' := ih fun c hc => h c (List.mem_cons_of_mem a hc)
    simp [splitLines, ha, ih']

theorem stringMk_data (s : String) : String.mk s.data = s := rfl

theorem jsOrEmpty_some (s : String) : jsOrEmpty (some s) = s := by
  by_cases h : s = ""
  · simp [jsOrEmpty, h]
  · have : s.isEmpty = false := by
      cases he : s.isEmpty
      · rfl
      · exact absurd ((String.isEmpty_iff s).mp he) h
    simp [jsOrEmpty, this]

theorem jsOrEmpty_eq_getD (o : Option String) : jsOrEmpty o = o.getD "" := by
  cases o with
  | none => rfl
  | some s => simpa using jsOrEmpty_some s

/-- A non-global literal replace keeps every occurrence of the pattern after
the first one: if the scanned string decomposes as `a ++ pat ++ b ++ pat ++ c`
the output still contains `pat`. -/
theorem jsReplaceFirstAux_keeps (pat repl : List Char) (hne : pat ≠ [])
    (a b c done : List Char) :
    containsL pat (jsReplaceFirstAux pat repl done (a ++ pat ++ b ++ pat ++ c)) = true := by
  induction a generalizing done with
  | nil =>
    obtain ⟨p, ps, rfl⟩ : ∃ p ps, pat = p :: ps := by
      cases pat with
      | nil => exact absurd rfl hne
      | cons p ps => exact ⟨p, ps, rfl⟩
    rw [List.nil_append]
    have hdecomp : (p :: ps) ++ b ++ (p :: ps) ++ c = p :: (ps ++ b ++ (p :: ps) ++ c) := by
      simp
    rw [hdecomp]
    have hguard : startsWithL (p :: ps) (p :: (ps ++ b ++ (p :: ps) ++ c)) = true := by
      have h0 := startsWithL_self_append (p :: ps) (b ++ (p :: ps) ++ c)
      simpa [List.append_assoc] using h0
    have hdrop : (p :: (ps ++ b ++ (p :: ps) ++ c)).drop (p :: ps).length
        = b ++ (p :: ps) ++ c := by
      have h1 : (p :: (ps ++ b ++ (p :: ps) ++ c)) = (p :: ps) ++ (b ++ (p :: ps) ++ c) := by
        simp [List.append_assoc]
      rw [h1, List.drop_left]
    simp only [jsReplaceFirstAux, hguard, List.isEmpty_cons, Bool.not_false, Bool.true_and,
      if_true, hdrop]
    have h2 : containsL (p :: ps) (b ++ (p :: ps) ++ c) = true := containsL_mid (p :: ps) b c
    exact containsL_append_left _ h2
  | cons a0 arest ih =>
    have hshape : (a0 :: arest) ++ pat ++ b ++ pat ++ c
        = a0 :: (arest ++ pat ++ b ++ pat ++ c) := by simp
    rw [hshape]
    by_cases hguard : (!pat.isEmpty && startsWithL pat (a0 :: (arest ++ pat ++ b ++ pat ++ c))) = true
    · have hlen : pat.length ≤ (a0 :: (arest ++ pat ++ b)).length := by
        simp [List.length_append]
        omega
      have hdecomp : a0 :: (arest ++ pat ++ b ++ pat ++ c)
          = (a0 :: (arest ++ pat ++ b)) ++ (pat ++ c) := by simp [List.append_assoc]
      have hdrop : (a0 :: (arest ++ pat ++ b ++ pat ++ c)).drop pat.length
          = (a0 :: (arest ++ pat ++ b)).drop pat.length ++ (pat ++ c) := by
        rw [hdecomp, List.drop_append_of_le_length hlen]
      simp only [jsReplaceFirstAux, hguard, if_true]
      apply containsL_append_left
      rw [hdrop]
      have h3 : containsL pat ((a0 :: (arest ++ pat ++ b)).drop pat.length ++ pat ++ c) = true :=
        containsL_mid pat ((a0 :: (arest ++ pat ++ b)).drop pat.length) c
      simpa [List.append_assoc] using h3
    · simp only [jsReplaceFirstAux, hguard, if_false]
      exact containsL_cons a0 (ih (done ++ [a0]))

theorem jsJoin_map_eq_specFlatDeps (ds : List Dep) :
    jsJoin "|" (ds.map fun d => d.id ++ ":" ++ jsOrEmpty d.version ++ ":") = specFlatDeps ds := by
  induction ds with
  | nil => rfl
  | cons d rest ih =>
    cases rest with
    | nil => simp [jsJoin, specFlatDeps, jsOrEmpty_eq_getD]
    | cons d2 rest2 =>
      have e1 : jsJoin "|" ((d :: d2 :: rest2).map fun x => x.id ++ ":" ++ jsOrEmpty x.version ++ ":")
          = (d.id ++ ":" ++ jsOrEmpty d.version ++ ":") ++ "|"
            ++ jsJoin "|" ((d2 :: rest2).map fun x => x.id ++ ":" ++ jsOrEmpty x.version ++ ":") := rfl
      rw [e1, ih, jsOrEmpty_eq_getD]
      rfl

theorem specFlatDeps_trailing (ds : List Dep) (h : ds ≠ []) :
    ∃ t, specFlatDeps ds = t ++ ":" := by
  induction ds with
  | nil => exact absurd rfl h
  | cons d rest ih =>
    cases rest with
    | nil =>
      refine ⟨d.id ++ ":" ++ d.version.getD "", ?_⟩
      simp [specFlatDeps, String.append_assoc]
    | cons d2 rest2 =>
      obtain ⟨t, ht⟩ := ih (by simp)
      refine ⟨d.id ++ ":" ++ d.version.getD "" ++ ":" ++ "|" ++ t, ?_⟩
      simp [specFlatDeps, ht, String.append_assoc]

/-- Claim C7: normalization sets `_flat_deps` to the `id:version:` segments of
the dependencies in order, trailing colon present even for an absent version,
joined by a pipe with no trailing pipe (the string ends in a colon whenever
dependencies exist), and to the empty string when there are no dependencies.
The first conjunct is the refinement against the spec-worded `specFlatDeps`
(whose `none`-case is the empty string via `getD`). -/
theorem claimC7_flat_deps (pfx : String) (e : Package) :
    (preprocessEntry pfx e)._flat_deps = (e.dependencies.map specFlatDeps).getD ""
    ∧ (∀ ds, e.dependencies = some ds → ds ≠ [] →
        ∃ t, (preprocessEntry pfx e)._flat_deps = t ++ ":") := by
  constructor
  · cases h : e.dependencies with
    | none => simp [preprocessEntry, h]
    | some ds => simp [preprocessEntry, h, jsJoin_map_eq_specFlatDeps]
  · intro ds hds hne
    have h1 : (preprocessEntry pfx e)._flat_deps = specFlatDeps ds := by
      simp [preprocessEntry, hds, jsJoin_map_eq_specFlatDeps]
    rw [h1]
    exact specFlatDeps_trailing ds hne

/-- Witness for C7 at a concrete record with two dependencies, the second
without a version. -/
theorem claimC7_witness :
    (preprocessEntry "/" demoDepPkg)._flat_deps = "a:1:|b::"
    ∧ ∃ t, (preprocessEntry "/" demoDepPkg)._flat_deps = t ++ ":" := by
  refine ⟨rfl, ?_⟩
  exact (claimC7_flat_deps "/" demoDepPkg).2
    [{ id := "a", version := some "1" }, { id := "b", version := none }] rfl (by decide)

/-- Claim C8: normalization pads a truthy (non-empty) tag string with exactly
one leading and one trailing space, and maps an empty or absent tag string to
the empty string. -/
theorem claimC8_flat_tags (pfx : String) (e : Package) (T : String) :
    (e.tags = some T → T ≠ "" → (preprocessEntry pfx e)._flat_tags = " " ++ T ++ " ")
    ∧ (e.tags = some "" → (preprocessEntry pfx e)._flat_tags = "")
    ∧ (e.tags = none → (preprocessEntry pfx e)._flat_tags = "") := by
  refine ⟨?_, ?_, ?_⟩
  · intro h hT
    have hf : T.isEmpty = false := by
      cases he : T.isEmpty
      · rfl
      · exact absurd ((String.isEmpty_iff T).mp he) hT
    simp [preprocessEntry, h, hf]
  · intro h
    simp only [preprocessEntry, h]
    rfl
  · intro h
    simp [preprocessEntry, h]

/-- Witness for C8 at a concrete record with tag string `t`. -/
theorem claimC8_witness : (preprocessEntry "/" demoTagPkg)._flat_tags = " t " :=
  (claimC8_flat_tags "/" demoTagPkg "t").1 rfl (by decide)

/-- Claim C9: with no `$filter` query parameter at all the package-query
handler throws (pattern match on `undefined`), and the per-request catch
wrapper produces the generic 500 `Exception!` response, which is not the 400
error-feed response used for unrecognized filter strings. -/
theorem claimC9_missing_filter (eT pT errA proto host : String) (pkgs : List Package) :
    getWrapped (packagesHandler eT pT errA pkgs none proto host)
      = { status := 500, contentType := none, body := Body.text "Exception!" }
    ∧ getWrapped (packagesHandler eT pT errA pkgs none proto host)
      ≠ { status := 400, contentType := some ATOM_MIME_TYPE, body := Body.text errA } := by
  refine ⟨rfl, ?_⟩
  have h1 : getWrapped (packagesHandler eT pT errA pkgs none proto host)
      = ({ status := 500, contentType := none, body := Body.text "Exception!" } : Response) := rfl
  rw [h1]
  simp

/-- Claim C4: a filter string matched by neither the exact-id pattern nor the
substring pattern yields the 400 error-feed response (here `errA` is the
error-document template the dispatcher loaded); the handler returns normally,
so the dispatcher keeps serving. -/
theorem claimC4_unrecognized (eT pT errA : String) (pkgs : List Package) (f proto host : String)
    (h1 : filterForOnePackage f = none) (h2 : filterForManyPackages f = none) :
    getWrapped (packagesHandler eT pT errA pkgs (some f) proto host)
      = { status := 400, contentType := some ATOM_MIME_TYPE, body := Body.text errA } := by
  simp [packagesHandler, h1, h2, optTruthy, getWrapped]

/-- Witness for C4 at the empty filter string. -/
theorem claimC4_witness :
    getWrapped (packagesHandler "e" "p" "err" [] (some "") "http" "h")
      = { status := 400, contentType := some ATOM_MIME_TYPE, body := Body.text "err" } :=
  claimC4_unrecognized "e" "p" "err" [] "" "http" "h" rfl rfl

/-- Claim C5: a download request whose id hits a record returns exactly that
record's captured archive bytes with the binary content type; an id hitting
no record returns 404 with the fixed generic body `Not found`. -/
theorem claimC5_download (pkgs : List Package) (name : String) :
    (∀ p : Package, pkgs.find? (fun e => e.id == name) = some p →
      downloadHandler pkgs name
        = { status := 200, contentType := some BINARY_MIME_TYPE, body := Body.bytes p.nupkgData })
    ∧ ((∀ p ∈ pkgs, p.id ≠ name) →
      downloadHandler pkgs name
        = { status := 404, contentType := none, body := Body.text "Not found" }) := by
  constructor
  · intro p h
    simp [downloadHandler, h]
  · intro h
    have hn : pkgs.find? (fun e => e.id == name) = none := by
      rw [List.find?_eq_none]
      intro x hx
      simpa using h x hx
    simp [downloadHandler, hn]

/-- Witness for C5: hit and miss on a concrete one-record set. -/
theorem claimC5_witness :
    downloadHandler [demoDl] "p"
      = { status := 200, contentType := some BINARY_MIME_TYPE, body := Body.bytes (some [7, 8]) }
    ∧ downloadHandler [demoDl] "z"
      = { status := 404, contentType := none, body := Body.text "Not found" } :=
  ⟨(claimC5_download [demoDl] "p").1 demoDl rfl, (claimC5_download [demoDl] "z").2 (by decide)⟩

/-- Claim C10 (amended): a substring query over the loaded records succeeds
exactly when every record either has a summary field or has an id containing
the substring — `summary.includes` is only reached for records whose id does
not contain the substring, because the disjunction short-circuits. -/
theorem claimC10_summary_success_iff (sub : String) (pkgs : List Package) :
    (∃ l, packagesSearchMatches sub pkgs = Except.ok l)
    ↔ ∀ e ∈ pkgs, e.summary.isSome = true ∨ jsIncludes e.id sub = true := by
  induction pkgs with
  | nil =>
    exact ⟨fun _ e he => absurd he (List.not_mem_nil e), fun _ => ⟨[], rfl⟩⟩
  | cons x xs ih =>
    constructor
    · rintro ⟨l, hl⟩
      cases hps : searchPred sub x with
      | error err =>
        simp only [packagesSearchMatches, filterE, hps] at hl
        exact absurd hl (by simp)
      | ok b =>
        cases hxs : filterE (searchPred sub) xs with
        | error err =>
          simp only [packagesSearchMatches, filterE, hps, hxs] at hl
          exact absurd hl (by simp)
        | ok rest =>
          intro e he
          rcases List.mem_cons.mp he with rfl | hmem
          · by_cases hid : jsIncludes e.id sub = true
            · exact Or.inr hid
            · cases hsum : e.summary with
              | none =>
                exfalso
                simp [searchPred, hid, hsum] at hps
              | some sm => exact Or.inl (by simp [hsum])
          · exact (ih.mp ⟨rest, hxs⟩) e hmem
    · intro h
      have hxok : ∃ b, searchPred sub x = Except.ok b := by
        by_cases hid : jsIncludes x.id sub = true
        · exact ⟨true, by simp [searchPred, hid]⟩
        · rcases h x (List.mem_cons_self x xs) with hsome | hid2
          · cases hsum : x.summary with
            | none =>
              rw [hsum] at hsome
              simp at hsome
            | some sm =>
              refine ⟨jsIncludes sm sub || jsIncludes x._flat_tags (" " ++ sub ++ " "), ?_⟩
              simp [searchPred, hid, hsum]
          · exact absurd hid2 hid
      obtain ⟨b, hb⟩ := hxok
      obtain ⟨rest, hrest⟩ := ih.mpr fun e he => h e (List.mem_cons_of_mem x he)
      refine ⟨if b then x :: rest else rest, ?_⟩
      have hrest' : filterE (searchPred sub) xs = Except.ok rest := hrest
      simp only [packagesSearchMatches, filterE, hb, hrest']

/-- Counterexample to claim C10 as stated: a loaded set containing a record
with no summary field, queried with a substring contained in that record's
id, does not throw — it succeeds and returns the record (the claim predicted
a thrown exception, a 500 response and no matches). -/
theorem claimC10_counterexample :
    demoNoSummary.summary = none
    ∧ packagesSearchMatches "foo" [demoNoSummary] = Except.ok [demoNoSummary] :=
  ⟨rfl, rfl⟩

/-- Witness for C10 at a concrete query that exercises the summary branch. -/
theorem claimC10_witness : ∃ l, packagesSearchMatches "zz" [demoTagged] = Except.ok l :=
  (claimC10_summary_success_iff "zz" [demoTagged]).mpr (by decide)

/-- Claim C3 (amended): when every loaded record has a summary (or an id
already containing the substring, which short-circuits the summary access),
the substring query returns exactly the records whose id contains the
substring, or whose summary contains the substring, or whose padded-tag
field contains the substring wrapped in single spaces — not the plain
substring. -/
theorem claimC3_substring_query (sub : String) (pkgs : List Package)
    (h : ∀ e ∈ pkgs, e.summary.isSome = true ∨ jsIncludes e.id sub = true) :
    packagesSearchMatches sub pkgs
      = Except.ok (pkgs.filter fun e =>
          jsIncludes e.id sub || jsIncludes (jsOrEmpty e.summary) sub
            || jsIncludes e._flat_tags (" " ++ sub ++ " ")) := by
  induction pkgs with
  | nil => rfl
  | cons x xs ih =>
    have htail := ih fun e he => h e (List.mem_cons_of_mem x he)
    have htail' : filterE (searchPred sub) xs
        = Except.ok (xs.filter fun e =>
            jsIncludes e.id sub || jsIncludes (jsOrEmpty e.summary) sub
              || jsIncludes e._flat_tags (" " ++ sub ++ " ")) := htail
    by_cases hid : jsIncludes x.id sub = true
    · have hpred : searchPred sub x = Except.ok true := by simp [searchPred, hid]
      simp only [packagesSearchMatches, filterE, hpred, htail']
      simp [List.filter_cons, hid]
    · rcases h x (List.mem_cons_self x xs) with hsome | hid2
      · cases hsum : x.summary with
        | none =>
          rw [hsum] at hsome
          simp at hsome
        | some sm =>
          have hpred : searchPred sub x
              = Except.ok (jsIncludes sm sub || jsIncludes x._flat_tags (" " ++ sub ++ " ")) := by
            simp [searchPred, hid, hsum]
          simp only [packagesSearchMatches, filterE, hpred, htail']
          simp [List.filter_cons, hid, hsum, jsOrEmpty_some]
      · exact absurd hid2 hid

/-- Counterexample to claim C3 as stated: a record whose padded-tag field
contains `ab` as a plain substring (but not space-wrapped) is excluded by the
code, while the claim's plain-substring reading would include it. -/
theorem claimC3_counterexample :
    packagesSearchMatches "ab" [demoTagged] = Except.ok []
    ∧ jsIncludes demoTagged._flat_tags "ab" = true
    ∧ ([demoTagged].filter fun e =>
        jsIncludes e.id "ab" || jsIncludes (jsOrEmpty e.summary) "ab"
          || jsIncludes e._flat_tags "ab") = [demoTagged] :=
  ⟨rfl, rfl, rfl⟩

/-- Witness for C3 at a whole-token tag query. -/
theorem claimC3_witness :
    packagesSearchMatches "abc" [demoTagged] = Except.ok [demoTagged] :=
  (claimC3_substring_query "abc" [demoTagged] (by decide)).trans (by rfl)

/-- Claim C6 (amended): for a quoted id value whose content has no newline,
the find-packages-by-id route strips the outer quotes (the greedy capture
runs to the last quote of the line, so inner quotes survive intact) and
returns exactly the records with the unquoted id; a quoted value containing a
newline is not unquoted at all, because the regex dot cannot cross the
newline. -/
theorem claimC6_find_by_id (pkgs : List Package) (v : String)
    (h : ∀ c ∈ v.data, c ≠ nlChar) :
    findByIdMatches pkgs (some (squoteStr ++ v ++ squoteStr))
      = pkgs.filter fun e => e.id == v := by
  have hsq : squoteStr.data = [squote] := rfl
  have hdata : (squoteStr ++ v ++ squoteStr).data = squote :: (v.data ++ [squote]) := by
    simp [String.data_append, hsq]
  have hnl : ∀ c ∈ v.data ++ [squote], c ≠ nlChar := by
    intro c hc
    rcases List.mem_append.mp hc with hv | hs
    · exact h c hv
    · rw [List.mem_singleton.mp hs]
      decide
  have hseg : lineSeg (v.data ++ [squote]) = v.data ++ [squote] := lineSeg_eq_self hnl
  have hlast : lastIdxOf squote (v.data ++ [squote]) = some v.data.length :=
    lastIdxOf_append_self squote v.data
  have hstripL : jsStripQuotesL (squote :: (v.data ++ [squote])) = v.data := by
    simp only [jsStripQuotesL, beq_self_eq_true, if_true, hseg, hlast]
    rw [List.take_left, List.drop_eq_nil_of_le (by simp)]
    simp
  have hq : jsStripQuotes (squoteStr ++ v ++ squoteStr) = v := by
    unfold jsStripQuotes
    rw [hdata, hstripL, stringMk_data]
  simp only [findByIdMatches, jsOrEmpty_some, hq]

/-- Witness for C6 at the spec's own example value. -/
theorem claimC6_witness :
    findByIdMatches [demoFound] (some (squoteStr ++ "exact-name" ++ squoteStr)) = [demoFound] :=
  (claimC6_find_by_id [demoFound] "exact-name" (by decide)).trans (by rfl)

/-- Counterexample to claim C6 as stated: a quoted value whose content holds
a newline is left quoted (the stripping regex cannot match across the
newline), so the record whose id equals the unquoted value is not returned,
while the claim predicts it is. -/
theorem claimC6_counterexample :
    findByIdMatches [demoNewlineId] (some (squoteStr ++ "a\nb" ++ squoteStr)) = []
    ∧ ([demoNewlineId].filter fun e => e.id == "a\nb") = [demoNewlineId] :=
  ⟨rfl, rfl⟩

theorem joinLines_single (l : List Char) : joinLines [l] = l := rfl

theorem substLineChars_span (lookup : List Char → List Char) (mid : List Char) :
    substLineChars lookup (lbrace :: (mid ++ [rbrace])) = lookup mid := by
  have hfirst : firstIdxOf lbrace (lbrace :: (mid ++ [rbrace])) = some 0 := by
    simp [firstIdxOf]
  have hlast : lastIdxOf rbrace (lbrace :: (mid ++ [rbrace])) = some (mid.length + 1) := by
    have h0 := lastIdxOf_append_self rbrace (lbrace :: mid)
    simpa using h0
  simp only [substLineChars, hfirst, hlast]
  rw [if_pos (Nat.succ_pos mid.length)]
  simp only [List.take_zero, List.nil_append, Nat.zero_add, List.drop_one, List.tail_cons,
    Nat.sub_zero, Nat.add_sub_cancel]
  rw [List.take_left, List.drop_eq_nil_of_le (by simp)]
  simp

/-- On a newline-free braced span, the global greedy replace fires exactly
once, keyed by everything between the opening brace and the last close brace. -/
theorem renderEntry_braced (lookup : String → Option String) (k : String)
    (hk : ∀ c ∈ k.data, c ≠ nlChar) :
    renderEntry ("\x7b" ++ k ++ "\x7d") lookup = jsOrEmpty (lookup k) := by
  have hlb : ("\x7b" : String).data = [lbrace] := rfl
  have hrb : ("\x7d" : String).data = [rbrace] := rfl
  have hdata : ("\x7b" ++ k ++ "\x7d").data = lbrace :: (k.data ++ [rbrace]) := by
    (simp [String.data_append, hlb, hrb]; decide)
  have hnl : ∀ c ∈ lbrace :: (k.data ++ [rbrace]), c ≠ nlChar := by
    intro c hc
    rcases List.mem_cons.mp hc with rfl | hc2
    · decide
    · rcases List.mem_append.mp hc2 with hk2 | hs
      · exact hk c hk2
      · rw [List.mem_singleton.mp hs]
        decide
  unfold renderEntry
  rw [hdata, splitLines_single hnl, List.map_singleton, joinLines_single, substLineChars_span]

/-- Claim C2 (amended): per-entry substitution never fails and substitutes a
missing key with the empty string, but the match is greedy per line: a lone
newline-free placeholder is substituted by its own field's value, while two
placeholders on the same line are consumed as one span reaching the last
close brace of the line, keyed by all the intervening text. -/
theorem claimC2_greedy_span (lookup : String → Option String) (k1 s k2 : String)
    (h1 : ∀ c ∈ k1.data, c ≠ nlChar) (h2 : ∀ c ∈ s.data, c ≠ nlChar)
    (h3 : ∀ c ∈ k2.data, c ≠ nlChar) :
    renderEntry ("\x7b" ++ k1 ++ "\x7d" ++ s ++ "\x7b" ++ k2 ++ "\x7d") lookup
      = jsOrEmpty (lookup (k1 ++ "\x7d" ++ s ++ "\x7b" ++ k2))
    ∧ ∀ k : String, (∀ c ∈ k.data, c ≠ nlChar) →
        renderEntry ("\x7b" ++ k ++ "\x7d") lookup = jsOrEmpty (lookup k) := by
  constructor
  · have hgrp : "\x7b" ++ k1 ++ "\x7d" ++ s ++ "\x7b" ++ k2 ++ "\x7d"
        = "\x7b" ++ (k1 ++ "\x7d" ++ s ++ "\x7b" ++ k2) ++ "\x7d" := by
      simp [String.append_assoc]
    rw [hgrp]
    apply renderEntry_braced
    intro c hc
    have hd : (k1 ++ "\x7d" ++ s ++ "\x7b" ++ k2).data
        = k1.data ++ [rbrace] ++ s.data ++ [lbrace] ++ k2.data := by
      (simp [String.data_append]; decide)
    rw [hd] at hc
    simp only [List.mem_append, List.mem_singleton] at hc
    rcases hc with ((((hk1 | hrb) | hs) | hlb) | hk2)
    · exact h1 c hk1
    · rw [hrb]
      decide
    · exact h2 c hs
    · rw [hlb]
      decide
    · exact h3 c hk2
  · intro k hk
    exact renderEntry_braced lookup k hk

/-- Counterexample to claim C2 as stated: on the template line
`{id}/{version}` with a record whose id is `p` and version is `1.0`, the
claim predicts the rendition `p/1.0`, but the greedy match consumes
`{id}/{version}` as a single span keyed `id}/{version`, an absent field, and
renders the empty string. -/
theorem claimC2_counterexample :
    renderEntry "{id}/{version}" demoPkgC2.fieldVal = ""
    ∧ demoPkgC2.fieldVal "id" = some "p"
    ∧ demoPkgC2.fieldVal "version" = some "1.0" :=
  ⟨rfl, rfl, rfl⟩

/-- Witness for C2 at the concrete two-placeholder line of the counterexample
record, with the composite-key lookup evaluated. -/
theorem claimC2_witness :
    renderEntry ("\x7b" ++ "id" ++ "\x7d" ++ "/" ++ "\x7b" ++ "version" ++ "\x7d")
        demoPkgC2.fieldVal
      = jsOrEmpty (demoPkgC2.fieldVal ("id" ++ "\x7d" ++ "/" ++ "\x7b" ++ "version"))
    ∧ jsOrEmpty (demoPkgC2.fieldVal ("id" ++ "\x7d" ++ "/" ++ "\x7b" ++ "version")) = "" :=
  ⟨(claimC2_greedy_span demoPkgC2.fieldVal "id" "/" "version"
      (by decide) (by decide) (by decide)).1, rfl⟩

/-- The response-time origin substitution replaces only the first occurrence
of the placeholder (the replace regex on line 184 lacks the global flag):
whenever the document assembled from the wrapper and the concatenated
rendered entries contains the placeholder twice, the rendered response still
contains it. -/
theorem formatPackages_keeps_second_placeholder (eT pT proto host a b c : String)
    (matched : List (String → Option String))
    (h : jsReplaceAll pT entriesPat (String.join (matched.map fun e => renderEntry eT e))
        = a ++ urlRootPh ++ b ++ urlRootPh ++ c) :
    jsIncludes (formatPackages eT pT matched proto host) urlRootPh = true := by
  have hdef : formatPackages eT pT matched proto host
      = jsReplaceFirst
          (jsReplaceAll pT entriesPat (String.join (matched.map fun e => renderEntry eT e)))
          urlRootPh (proto ++ "://" ++ host) := rfl
  rw [hdef, h]
  have hdata : (a ++ urlRootPh ++ b ++ urlRootPh ++ c).data
      = a.data ++ urlRootPh.data ++ b.data ++ urlRootPh.data ++ c.data := by
    simp [String.data_append]
  unfold jsIncludes jsReplaceFirst
  rw [show (String.mk (jsReplaceFirstAux urlRootPh.data (proto ++ "://" ++ host).data []
        ((a ++ urlRootPh ++ b ++ urlRootPh ++ c).data))).data
      = jsReplaceFirstAux urlRootPh.data (proto ++ "://" ++ host).data []
        ((a ++ urlRootPh ++ b ++ urlRootPh ++ c).data) from rfl]
  rw [hdata]
  exact jsReplaceFirstAux_keeps urlRootPh.data (proto ++ "://" ++ host).data (by decide)
    a.data b.data c.data []

set_option maxRecDepth 80000 in
/-- Claim C1: evaluation of the renderer at the failing input — two
locally-hosted records (the repository's entry template, the spec-modelled
collection wrapper, request origin `http://example.com`): the first entry's
download URL is resolved, but the literal deferred placeholder survives in
the second entry's download URL, so the rendered response contains the
placeholder text the claim says is always eliminated. -/
theorem claimC1_placeholder_survives :
    jsIncludes
      (formatPackages entryTemplateAtom packagesTemplateSpec
        ([demoLocalA, demoLocalB].map Package.fieldVal) "http" "example.com")
      urlRootPh = true
    ∧ jsIncludes
      (formatPackages entryTemplateAtom packagesTemplateSpec
        ([demoLocalA, demoLocalB].map Package.fieldVal) "http" "example.com")
      ("http://example.com/download/a") = true := by
  constructor
  · rfl
  · rfl

/-- Witness for C9 at a concrete empty record set. -/
theorem claimC9_witness :
    getWrapped (packagesHandler "e" "p" "err" [] none "http" "h")
      = { status := 500, contentType := none, body := Body.text "Exception!" } :=
  (claimC9_missing_filter "e" "p" "err" "http" "h" []).1
